import Mathlib

/-!
Verification of the AR(1) discretization and growth-model code
(`ps1_3cd.py`, `ps1_5de.py`): Tauchen and Rouwenhorst transition
matrices, the intratemporal labor condition, the VFI loop skeleton,
policy-table postprocessing, and the module-level script semantics.
Real-valued quantities are embedded over `ℝ` (the standard-normal CDF is
kept abstract as a parameter `Phi`); exact rational bookkeeping uses `ℚ`.
-/

namespace GrowthModel

/-! ## Tauchen discretization (`ps1_5de.py`, `tauchen`, lines 185-212)

`stats.norm.cdf(x, loc, scale)` is `Phi ((x - loc) / scale)` for the
standard-normal CDF `Phi`; the embedding abstracts `Phi` as a parameter
(the proofs use monotonicity and the range bound only). -/

/-- Mean of the stationary AR(1): `mu/(1.0-rho)` (line 187). -/
noncomputable def arMean (mu rho : ℝ) : ℝ := mu / (1 - rho)

/-- Std. dev of the stationary AR(1): `sigma/((1.0-rho**2.0)**(1/2))` (line 188). -/
noncomputable def arSd (sigma rho : ℝ) : ℝ := sigma / Real.sqrt (1 - rho ^ 2)

/-- Smallest grid point `y1 = ar_mean-(m*ar_sd)` (line 190). -/
noncomputable def tauchenY1 (mu rho sigma m : ℝ) : ℝ :=
  arMean mu rho - m * arSd sigma rho

/-- Largest grid point `yn = ar_mean+(m*ar_sd)` (line 191). -/
noncomputable def tauchenYn (mu rho sigma m : ℝ) : ℝ :=
  arMean mu rho + m * arSd sigma rho

/-- The `linspace` step `d = (yn-y1)/(N-1)` (line 193, `retstep=True`). -/
noncomputable def tauchenStep (mu rho sigma m : ℝ) (N : ℕ) : ℝ :=
  (tauchenYn mu rho sigma m - tauchenY1 mu rho sigma m) / ((N : ℝ) - 1)

/-- Grid point `i` of `linspace(y1,yn,N)`: `y1 + i*d` (line 193). -/
noncomputable def tauchenGrid (mu rho sigma m : ℝ) (N i : ℕ) : ℝ :=
  tauchenY1 mu rho sigma m + (i : ℝ) * tauchenStep mu rho sigma m N

/-- `stats.norm.cdf(x, loc, scale)` standardizes and applies the CDF. -/
noncomputable def normCdf (Phi : ℝ → ℝ) (x loc scale : ℝ) : ℝ :=
  Phi ((x - loc) / scale)

/-- Entry `(j,k)` of the Tauchen transition matrix (lines 201-203):
interior columns get the conditional mass of the width-`d` cell, column `0`
gets `norm.cdf(y[0], loc=mu+rho*y-(d/2), scale)`, column `N-1` gets
`1 - norm.cdf(y[N-1], loc=mu+rho*y+(d/2), scale)`. -/
noncomputable def tauchenPmat (Phi : ℝ → ℝ) (mu rho sigma m : ℝ) (N j k : ℕ) : ℝ :=
  if k = 0 then
    normCdf Phi (tauchenGrid mu rho sigma m N 0)
      (mu + rho * tauchenGrid mu rho sigma m N j - tauchenStep mu rho sigma m N / 2) sigma
  else if k = N - 1 then
    1 - normCdf Phi (tauchenGrid mu rho sigma m N (N - 1))
      (mu + rho * tauchenGrid mu rho sigma m N j + tauchenStep mu rho sigma m N / 2) sigma
  else
    normCdf Phi (tauchenGrid mu rho sigma m N k)
      (mu + rho * tauchenGrid mu rho sigma m N j - tauchenStep mu rho sigma m N / 2) sigma
    - normCdf Phi (tauchenGrid mu rho sigma m N k)
      (mu + rho * tauchenGrid mu rho sigma m N j + tauchenStep mu rho sigma m N / 2) sigma

lemma tauchenStep_nonneg (mu rho sigma m : ℝ) (N : ℕ)
    (hsigma : 0 < sigma) (hm : 0 < m) (hN : 2 ≤ N) :
    0 ≤ tauchenStep mu rho sigma m N := by
  have hsd : 0 ≤ arSd sigma rho := by
    have := Real.sqrt_nonneg (1 - rho ^ 2)
    exact div_nonneg hsigma.le this
  have hnum : 0 ≤ tauchenYn mu rho sigma m - tauchenY1 mu rho sigma m := by
    unfold tauchenYn tauchenY1
    nlinarith
  have hden : (0 : ℝ) ≤ (N : ℝ) - 1 := by
    have : (2 : ℝ) ≤ (N : ℝ) := by exact_mod_cast hN
    linarith
  exact div_nonneg hnum hden

lemma cdf_telescope (Phi : ℝ → ℝ) (a d s : ℝ) (M : ℕ) :
    (Phi ((a + d / 2) / s)
        + ∑ k ∈ Finset.range M,
            (Phi ((a + ((k : ℝ) + 1) * d + d / 2) / s)
              - Phi ((a + (k : ℝ) * d + d / 2) / s)))
      + (1 - Phi ((a + (M : ℝ) * d + d / 2) / s)) = 1 := by
  have h := Finset.sum_range_sub (fun k : ℕ => Phi ((a + (k : ℝ) * d + d / 2) / s)) M
  push_cast at h
  rw [h]
  ring

lemma tauchenGrid_eq (mu rho sigma m : ℝ) (N i : ℕ) :
    tauchenGrid mu rho sigma m N i
      = tauchenY1 mu rho sigma m + (i : ℝ) * tauchenStep mu rho sigma m N := rfl

/-- In exact arithmetic every row of the Tauchen matrix sums to exactly 1:
the interior cells telescope and the first/last columns absorb the tails. -/
lemma tauchenPmat_rowsum (Phi : ℝ → ℝ) (mu rho sigma m : ℝ) (M j : ℕ) :
    ∑ k ∈ Finset.range (M + 2), tauchenPmat Phi mu rho sigma m (M + 2) j k = 1 := by
  have hsplit :
      ∑ k ∈ Finset.range (M + 2), tauchenPmat Phi mu rho sigma m (M + 2) j k
        = (tauchenPmat Phi mu rho sigma m (M + 2) j 0
            + ∑ k ∈ Finset.range M, tauchenPmat Phi mu rho sigma m (M + 2) j (k + 1))
          + tauchenPmat Phi mu rho sigma m (M + 2) j (M + 1) := by
    rw [Finset.sum_range_succ, Finset.sum_range_succ']
    ring
  rw [hsplit]
  have h0 : tauchenPmat Phi mu rho sigma m (M + 2) j 0
      = Phi (((tauchenY1 mu rho sigma m
          - (mu + rho * tauchenGrid mu rho sigma m (M + 2) j))
            + tauchenStep mu rho sigma m (M + 2) / 2) / sigma) := by
    simp only [tauchenPmat, if_pos rfl, normCdf, tauchenGrid_eq]
    push_cast
    ring_nf
  have hlast : tauchenPmat Phi mu rho sigma m (M + 2) j (M + 1)
      = 1 - Phi (((tauchenY1 mu rho sigma m
          - (mu + rho * tauchenGrid mu rho sigma m (M + 2) j))
            + (M : ℝ) * tauchenStep mu rho sigma m (M + 2)
            + tauchenStep mu rho sigma m (M + 2) / 2) / sigma) := by
    have hne : (M + 1 : ℕ) ≠ 0 := by omega
    have heq : (M + 1 : ℕ) = M + 2 - 1 := by omega
    simp only [tauchenPmat, if_neg hne, ← heq, if_pos rfl, normCdf, tauchenGrid_eq]
    push_cast
    ring_nf
  have hmid : ∀ k ∈ Finset.range M,
      tauchenPmat Phi mu rho sigma m (M + 2) j (k + 1)
        = Phi (((tauchenY1 mu rho sigma m
            - (mu + rho * tauchenGrid mu rho sigma m (M + 2) j))
              + ((k : ℝ) + 1) * tauchenStep mu rho sigma m (M + 2)
              + tauchenStep mu rho sigma m (M + 2) / 2) / sigma)
          - Phi (((tauchenY1 mu rho sigma m
            - (mu + rho * tauchenGrid mu rho sigma m (M + 2) j))
              + (k : ℝ) * tauchenStep mu rho sigma m (M + 2)
              + tauchenStep mu rho sigma m (M + 2) / 2) / sigma) := by
    intro k hk
    have hk' : k < M := Finset.mem_range.mp hk
    have hne0 : (k + 1 : ℕ) ≠ 0 := by omega
    have hne1 : (k + 1 : ℕ) ≠ M + 2 - 1 := by omega
    simp only [tauchenPmat, if_neg hne0, if_neg hne1, normCdf, tauchenGrid_eq]
    push_cast
    ring_nf
  rw [h0, hlast, Finset.sum_congr rfl hmid]
  exact cdf_telescope Phi
    (tauchenY1 mu rho sigma m - (mu + rho * tauchenGrid mu rho sigma m (M + 2) j))
    (tauchenStep mu rho sigma m (M + 2)) sigma M

/-- Every entry of the Tauchen matrix lies in `[0,1]` when the CDF is
monotone with range in `[0,1]` and the grid step is non-negative. -/
lemma tauchenPmat_mem_unit (Phi : ℝ → ℝ) (mu rho sigma m : ℝ) (N j k : ℕ)
    (hmono : Monotone Phi) (hlo : ∀ x, 0 ≤ Phi x) (hhi : ∀ x, Phi x ≤ 1)
    (hsigma : 0 < sigma) (hstep : 0 ≤ tauchenStep mu rho sigma m N) :
    0 ≤ tauchenPmat Phi mu rho sigma m N j k ∧ tauchenPmat Phi mu rho sigma m N j k ≤ 1 := by
  unfold tauchenPmat normCdf
  by_cases h0 : k = 0
  · rw [if_pos h0]
    exact ⟨hlo _, hhi _⟩
  · rw [if_neg h0]
    by_cases h1 : k = N - 1
    · rw [if_pos h1]
      constructor
      · linarith [hhi ((tauchenGrid mu rho sigma m N (N - 1)
          - (mu + rho * tauchenGrid mu rho sigma m N j + tauchenStep mu rho sigma m N / 2))
            / sigma)]
      · linarith [hlo ((tauchenGrid mu rho sigma m N (N - 1)
          - (mu + rho * tauchenGrid mu rho sigma m N j + tauchenStep mu rho sigma m N / 2))
            / sigma)]
    · rw [if_neg h1]
      have harg : (tauchenGrid mu rho sigma m N k
            - (mu + rho * tauchenGrid mu rho sigma m N j + tauchenStep mu rho sigma m N / 2))
              / sigma
          ≤ (tauchenGrid mu rho sigma m N k
            - (mu + rho * tauchenGrid mu rho sigma m N j - tauchenStep mu rho sigma m N / 2))
              / sigma := by
        gcongr
        linarith
      have hm := hmono harg
      constructor
      · linarith
      · have ha := hhi ((tauchenGrid mu rho sigma m N k
          - (mu + rho * tauchenGrid mu rho sigma m N j - tauchenStep mu rho sigma m N / 2))
            / sigma)
        have hb := hlo ((tauchenGrid mu rho sigma m N k
          - (mu + rho * tauchenGrid mu rho sigma m N j + tauchenStep mu rho sigma m N / 2))
            / sigma)
        linarith

/-- C1. For every valid AR(1) parameterization (|rho| < 1, sigma > 0,
N >= 4, m > 0) and any monotone CDF with range in [0,1], every row of the
Tauchen transition matrix sums to exactly 1 in exact arithmetic (the first
and last columns absorb the tail mass), hence also to 1 within 1e-6, and
all entries lie in [0,1]. -/
theorem tauchen_rows_sum_to_one (Phi : ℝ → ℝ) (mu rho sigma m : ℝ) (N j : ℕ)
    (hmono : Monotone Phi) (hlo : ∀ x, 0 ≤ Phi x) (hhi : ∀ x, Phi x ≤ 1)
    (_hrho : |rho| < 1) (hsigma : 0 < sigma) (hN : 4 ≤ N) (hm : 0 < m) (_hj : j < N) :
    (∑ k ∈ Finset.range N, tauchenPmat Phi mu rho sigma m N j k) = 1 ∧
    |(∑ k ∈ Finset.range N, tauchenPmat Phi mu rho sigma m N j k) - 1| ≤ 1 / 1000000 ∧
    ∀ k < N, 0 ≤ tauchenPmat Phi mu rho sigma m N j k
      ∧ tauchenPmat Phi mu rho sigma m N j k ≤ 1 := by
  obtain ⟨M, rfl⟩ : ∃ M, N = M + 2 := ⟨N - 2, by omega⟩
  have hsum := tauchenPmat_rowsum Phi mu rho sigma m M j
  refine ⟨hsum, by rw [hsum]; norm_num, fun k _ => ?_⟩
  exact tauchenPmat_mem_unit Phi mu rho sigma m (M + 2) j k hmono hlo hhi hsigma
    (tauchenStep_nonneg mu rho sigma m (M + 2) hsigma hm (by omega))

/-- Witness for C1 at the constant CDF 1/2, mu = 0, rho = 0, sigma = 1,
m = 1, N = 4, row j = 0. -/
theorem tauchen_rows_sum_to_one_witness :
    (∑ k ∈ Finset.range 4, tauchenPmat (fun _ => 1 / 2) 0 0 1 1 4 0 k) = 1 ∧
    |(∑ k ∈ Finset.range 4, tauchenPmat (fun _ => 1 / 2) 0 0 1 1 4 0 k) - 1| ≤ 1 / 1000000 ∧
    ∀ k < 4, 0 ≤ tauchenPmat (fun _ => 1 / 2) 0 0 1 1 4 0 k
      ∧ tauchenPmat (fun _ => 1 / 2) 0 0 1 1 4 0 k ≤ 1 :=
  tauchen_rows_sum_to_one (fun _ => 1 / 2) 0 0 1 1 4 0 monotone_const
    (fun _ => by norm_num) (fun _ => by norm_num) (by norm_num) (by norm_num)
    (by norm_num) (by norm_num) (by norm_num)

/-! ## The `tauchen` row-sum check (`ps1_5de.py`, lines 209-210)

`if count_nonzero(pmat.sum(axis=1)<0.999999) > 0: raise Exception(...)`.
Rows are modelled as lists of exact rationals; `true` = the exception is
raised. -/

/-- The raise condition of `tauchen` (line 209): the number of row sums
strictly below `0.999999` is positive. -/
def tauchenRaises (pmat : List (List ℚ)) : Bool :=
  decide (0 < (pmat.map List.sum).countP (fun s => decide (s < 999999 / 1000000)))

/-- C2 (amended). The discretization error is raised iff some row of the
constructed matrix sums to strictly less than 0.999999; there is no check
of an upper bound. -/
theorem tauchenRaises_iff_low_row (pmat : List (List ℚ)) :
    tauchenRaises pmat = true ↔ ∃ row ∈ pmat, List.sum row < 999999 / 1000000 := by
  simp only [tauchenRaises, decide_eq_true_eq, List.countP_pos_iff, List.mem_map,
    decide_eq_true_eq]
  constructor
  · rintro ⟨s, ⟨row, hrow, rfl⟩, hs⟩
    exact ⟨row, hrow, hs⟩
  · rintro ⟨row, hrow, hs⟩
    exact ⟨List.sum row, ⟨row, hrow, rfl⟩, hs⟩

/-- C2 counterexample. The one-row matrix `[[2]]` has row sum `2`, far
above `1.000001`, yet the check does not raise: the raise condition is not
equivalent to "some row sums outside `[0.999999, 1.000001]`". -/
theorem tauchenRaises_ignores_high_rows :
    ¬ (tauchenRaises [[2]] = true ↔
        ∃ row ∈ [[(2 : ℚ)]],
          List.sum row < 999999 / 1000000 ∨ 1000001 / 1000000 < List.sum row) := by
  intro h
  have htrue : tauchenRaises [[2]] = true :=
    h.mpr ⟨[2], by simp, Or.inr (by norm_num)⟩
  have hfalse : tauchenRaises [[2]] = false := by
    simp only [tauchenRaises, List.map_cons, List.map_nil, List.sum_cons, List.sum_nil,
      List.countP_cons, List.countP_nil]
    norm_num
  rw [htrue] at hfalse
  exact Bool.noConfusion hfalse

/-! ## Rouwenhorst recursion (`ps1_3cd.py`, `rouwenhorst`, lines 13-31)

The N-state matrix is the weighted 4-way `np.block` combination of the
(N-1)-state matrix (lines 24-27), with rows `1..N-2` divided by 2
(line 30); the base case `N = 2` is `[[p, 1-p], [1-p, p]]` (line 21).
The matrix is embedded as a function of row/column index; entries outside
the N by N block are never consulted (row sums run over `range N`). -/

def rouwenhorst (p : ℚ) : ℕ → ℕ → ℕ → ℚ
  | 0, _, _ => 0
  | 1, _, _ => 0
  | 2, i, j =>
      if i = 0 then (if j = 0 then p else if j = 1 then 1 - p else 0)
      else if i = 1 then (if j = 0 then 1 - p else if j = 1 then p else 0)
      else 0
  | n + 3, i, j =>
      let b :=
        p * (if i < n + 2 ∧ j < n + 2 then rouwenhorst p (n + 2) i j else 0)
          + (1 - p) * (if i < n + 2 ∧ 1 ≤ j then rouwenhorst p (n + 2) i (j - 1) else 0)
          + (1 - p) * (if 1 ≤ i ∧ j < n + 2 then rouwenhorst p (n + 2) (i - 1) j else 0)
          + p * (if 1 ≤ i ∧ 1 ≤ j then rouwenhorst p (n + 2) (i - 1) (j - 1) else 0)
      if 1 ≤ i ∧ i ≤ n + 1 then b / 2 else b

/-- The 4-block combination (lines 24-27) before the interior-row division. -/
def rouwenBlock (p : ℚ) (n i j : ℕ) : ℚ :=
  p * (if i < n + 2 ∧ j < n + 2 then rouwenhorst p (n + 2) i j else 0)
    + (1 - p) * (if i < n + 2 ∧ 1 ≤ j then rouwenhorst p (n + 2) i (j - 1) else 0)
    + (1 - p) * (if 1 ≤ i ∧ j < n + 2 then rouwenhorst p (n + 2) (i - 1) j else 0)
    + p * (if 1 ≤ i ∧ 1 ≤ j then rouwenhorst p (n + 2) (i - 1) (j - 1) else 0)

lemma rouwenhorst_succ (p : ℚ) (n i j : ℕ) :
    rouwenhorst p (n + 3) i j =
      if 1 ≤ i ∧ i ≤ n + 1 then rouwenBlock p n i j / 2 else rouwenBlock p n i j := rfl

lemma sum_trunc3 (f : ℕ → ℚ) (n : ℕ) :
    ∑ j ∈ Finset.range (n + 3), (if j < n + 2 then f j else 0)
      = ∑ j ∈ Finset.range (n + 2), f j := by
  rw [Finset.sum_range_succ, if_neg (lt_irrefl (n + 2)), add_zero]
  exact Finset.sum_congr rfl fun j hj => if_pos (Finset.mem_range.mp hj)

lemma sum_shift3 (f : ℕ → ℚ) (n : ℕ) :
    ∑ j ∈ Finset.range (n + 3), (if 1 ≤ j then f (j - 1) else 0)
      = ∑ j ∈ Finset.range (n + 2), f j := by
  rw [Finset.sum_range_succ']
  simp

lemma rouwenBlock_rowsum (p : ℚ) (n i : ℕ) (hi : i < n + 3)
    (IH : ∀ i' < n + 2, ∑ j ∈ Finset.range (n + 2), rouwenhorst p (n + 2) i' j = 1) :
    ∑ j ∈ Finset.range (n + 3), rouwenBlock p n i j
      = (if i < n + 2 then 1 else 0) + (if 1 ≤ i then 1 else 0) := by
  unfold rouwenBlock
  rw [Finset.sum_add_distrib, Finset.sum_add_distrib, Finset.sum_add_distrib,
    ← Finset.mul_sum, ← Finset.mul_sum, ← Finset.mul_sum, ← Finset.mul_sum]
  have ht1 : ∑ j ∈ Finset.range (n + 3),
      (if i < n + 2 ∧ j < n + 2 then rouwenhorst p (n + 2) i j else 0)
        = if i < n + 2 then 1 else 0 := by
    by_cases hi2 : i < n + 2
    · simp only [hi2, true_and, if_pos]
      rw [sum_trunc3]
      exact IH i hi2
    · simp [hi2]
  have ht2 : ∑ j ∈ Finset.range (n + 3),
      (if i < n + 2 ∧ 1 ≤ j then rouwenhorst p (n + 2) i (j - 1) else 0)
        = if i < n + 2 then 1 else 0 := by
    by_cases hi2 : i < n + 2
    · simp only [hi2, true_and, if_pos]
      rw [sum_shift3]
      exact IH i hi2
    · simp [hi2]
  have ht3 : ∑ j ∈ Finset.range (n + 3),
      (if 1 ≤ i ∧ j < n + 2 then rouwenhorst p (n + 2) (i - 1) j else 0)
        = if 1 ≤ i then 1 else 0 := by
    by_cases hi1 : 1 ≤ i
    · simp only [hi1, true_and, if_pos]
      rw [sum_trunc3]
      exact IH (i - 1) (by omega)
    · simp [hi1]
  have ht4 : ∑ j ∈ Finset.range (n + 3),
      (if 1 ≤ i ∧ 1 ≤ j then rouwenhorst p (n + 2) (i - 1) (j - 1) else 0)
        = if 1 ≤ i then 1 else 0 := by
    by_cases hi1 : 1 ≤ i
    · simp only [hi1, true_and, if_pos]
      rw [sum_shift3]
      exact IH (i - 1) (by omega)
    · simp [hi1]
  rw [ht1, ht2, ht3, ht4]
  ring

lemma rouwenhorst_rowsum (p : ℚ) :
    ∀ M, ∀ i < M + 2, ∑ j ∈ Finset.range (M + 2), rouwenhorst p (M + 2) i j = 1 := by
  intro M
  induction M with
  | zero =>
      intro i hi
      interval_cases i <;>
        · simp [rouwenhorst, Finset.sum_range_succ]
          try ring
  | succ n IH =>
      intro i hi
      show ∑ j ∈ Finset.range (n + 3), rouwenhorst p (n + 3) i j = 1
      have hi' : i < n + 3 := hi
      have hb := rouwenBlock_rowsum p n i hi' IH
      by_cases hint : 1 ≤ i ∧ i ≤ n + 1
      · have : ∑ j ∈ Finset.range (n + 3), rouwenhorst p (n + 3) i j
            = (∑ j ∈ Finset.range (n + 3), rouwenBlock p n i j) / 2 := by
          rw [Finset.sum_div]
          exact Finset.sum_congr rfl fun j _ => by rw [rouwenhorst_succ, if_pos hint]
        rw [this, hb, if_pos (by omega), if_pos hint.1]
        norm_num
      · have : ∑ j ∈ Finset.range (n + 3), rouwenhorst p (n + 3) i j
            = ∑ j ∈ Finset.range (n + 3), rouwenBlock p n i j := by
          exact Finset.sum_congr rfl fun j _ => by rw [rouwenhorst_succ, if_neg hint]
        rw [this, hb]
        rcases Nat.eq_zero_or_pos i with h0 | h0
        · subst h0
          norm_num
        · have h2 : ¬ i < n + 2 := by omega
          have h1 : 1 ≤ i := h0
          rw [if_neg h2, if_pos h1]
          norm_num

lemma rouwenhorst_nonneg (p : ℚ) (hp0 : 0 ≤ p) (hp1 : p ≤ 1) :
    ∀ N i j, 0 ≤ rouwenhorst p N i j := by
  intro N
  induction N using Nat.strong_induction_on with
  | _ N IH =>
    intro i j
    have h1p : (0 : ℚ) ≤ 1 - p := by linarith
    rcases N with _ | N1
    · simp [rouwenhorst]
    rcases N1 with _ | N2
    · simp [rouwenhorst]
    rcases N2 with _ | n
    · show 0 ≤ rouwenhorst p 2 i j
      simp only [rouwenhorst]
      split_ifs <;> first | exact hp0 | exact h1p | exact le_refl 0
    · show 0 ≤ rouwenhorst p (n + 3) i j
      have hprev := IH (n + 2) (by omega)
      have hb : 0 ≤ rouwenBlock p n i j := by
        unfold rouwenBlock
        refine add_nonneg (add_nonneg (add_nonneg ?_ ?_) ?_) ?_ <;>
          refine mul_nonneg (by linarith) ?_ <;>
            · split
              · exact hprev _ _
              · exact le_refl 0
      rw [rouwenhorst_succ]
      split
      · positivity
      · exact hb

/-- C3. For every number of states N >= 2 and p in [0,1], the Rouwenhorst
matrix is row-stochastic (row sums are 1 and entries non-negative), and
for N = 2 it is exactly the base case [[p, 1-p], [1-p, p]]. -/
theorem rouwenhorst_row_stochastic (p : ℚ) (hp0 : 0 ≤ p) (hp1 : p ≤ 1)
    (N : ℕ) (hN : 2 ≤ N) :
    (∀ i < N, (∑ j ∈ Finset.range N, rouwenhorst p N i j) = 1
        ∧ ∀ j < N, 0 ≤ rouwenhorst p N i j)
    ∧ rouwenhorst p 2 0 0 = p ∧ rouwenhorst p 2 0 1 = 1 - p
    ∧ rouwenhorst p 2 1 0 = 1 - p ∧ rouwenhorst p 2 1 1 = p := by
  obtain ⟨M, rfl⟩ : ∃ M, N = M + 2 := ⟨N - 2, by omega⟩
  exact ⟨fun i hi =>
      ⟨rouwenhorst_rowsum p M i hi, fun j _ => rouwenhorst_nonneg p hp0 hp1 (M + 2) i j⟩,
    rfl, rfl, rfl, rfl⟩

/-- Witness for C3 at p = 1/2, N = 3. -/
theorem rouwenhorst_row_stochastic_witness :
    (∀ i < 3, (∑ j ∈ Finset.range 3, rouwenhorst (1 / 2) 3 i j) = 1
        ∧ ∀ j < 3, 0 ≤ rouwenhorst (1 / 2) 3 i j)
    ∧ rouwenhorst (1 / 2) 2 0 0 = 1 / 2 ∧ rouwenhorst (1 / 2) 2 0 1 = 1 - 1 / 2
    ∧ rouwenhorst (1 / 2) 2 1 0 = 1 - 1 / 2 ∧ rouwenhorst (1 / 2) 2 1 1 = 1 / 2 :=
  rouwenhorst_row_stochastic (1 / 2) (by norm_num) (by norm_num) 3 (by norm_num)

/-! ## Intratemporal condition (`ps1_5de.py`, `intra_foc`, lines 351-368)

`c = A*(k**alpha)*(n**(1-alpha)) + (1-delta)*k - kp`,
`mpl = A*(1-alpha)*((k/n)**alpha)`, `un = -gamma*(1-n)**(1/nu)`,
`uc = 1/c` when `sigma == 1` (log) else `c**(-sigma)`; the residual is
`uc*mpl + un`. Real exponents are `Real.rpow`. In `plan_allocations`
(line 283) the labor choice is `fminbound(foc, 0.0, 1.0)`: bounded
minimization of this signed residual over `[0,1]`. -/

open Classical in
noncomputable def intra_foc (n kp A k alpha delta sigma nu gamma : ℝ) : ℝ :=
  (if sigma = 1 then
      1 / (A * k ^ alpha * n ^ (1 - alpha) + ((1 - delta) * k - kp))
    else
      (A * k ^ alpha * n ^ (1 - alpha) + ((1 - delta) * k - kp)) ^ (-sigma))
    * (A * (1 - alpha) * (k / n) ^ alpha)
  + (-gamma * (1 - n) ^ (1 / nu))

lemma intra_foc_log_eval (n kp A k alpha delta nu gamma : ℝ) :
    intra_foc n kp A k alpha delta 1 nu gamma
      = 1 / (A * k ^ alpha * n ^ (1 - alpha) + ((1 - delta) * k - kp))
          * (A * (1 - alpha) * (k / n) ^ alpha)
        + (-gamma * (1 - n) ^ (1 / nu)) := by
  unfold intra_foc
  rw [if_pos rfl]

/-- At k = 1, kp = 1, A = 1, alpha = 1/2, delta = 0, sigma = 1, nu = 1,
gamma = 1/4 the residual is `1/(2n) - (1-n)/4` for n > 0. -/
lemma intra_foc_concrete (n : ℝ) (hn : 0 < n) :
    intra_foc n 1 1 1 (1 / 2) 0 1 1 (1 / 4) = 1 / (2 * n) - (1 - n) / 4 := by
  rw [intra_foc_log_eval]
  have e1 : (1 : ℝ) ^ ((1 : ℝ) / 2) = 1 := Real.one_rpow _
  have e2 : n ^ (1 - (1 : ℝ) / 2) = n ^ ((1 : ℝ) / 2) := by norm_num
  have e3 : ((1 : ℝ) / n) ^ ((1 : ℝ) / 2) = (n ^ ((1 : ℝ) / 2))⁻¹ := by
    rw [one_div, ← Real.inv_rpow hn.le]
  have e4 : n ^ ((1 : ℝ) / 2) * n ^ ((1 : ℝ) / 2) = n := by
    rw [← Real.rpow_add hn]
    norm_num
  have e5 : (1 - n) ^ ((1 : ℝ) / 1) = 1 - n := by
    rw [show (1 : ℝ) / 1 = 1 by norm_num, Real.rpow_one]
  rw [e1, e2, e3, e5]
  set s := n ^ ((1 : ℝ) / 2) with hsdef
  have hs : (0 : ℝ) < s := Real.rpow_pos_of_pos hn _
  rw [← e4]
  field_simp
  ring

/-- At n = 0 the Lean embedding evaluates the residual to `-1/4`
(`c = 0`, `1/0 = 0` and `(1/0)^(1/2) = 0` by convention, so the
consumption term vanishes and only `un = -1/4` remains). -/
lemma intra_foc_concrete_zero :
    intra_foc 0 1 1 1 (1 / 2) 0 1 1 (1 / 4) = -(1 / 4) := by
  rw [intra_foc_log_eval]
  rw [show ((0 : ℝ)) ^ (1 - (1 : ℝ) / 2) = 0 from Real.zero_rpow (by norm_num)]
  rw [show ((1 : ℝ) / 0) ^ ((1 : ℝ) / 2) = 0 by
    rw [div_zero]
    exact Real.zero_rpow (by norm_num)]
  rw [show (1 - (0 : ℝ)) ^ ((1 : ℝ) / 1) = 1 from by
    rw [show (1 : ℝ) / 1 = 1 by norm_num, Real.rpow_one]
    norm_num]
  ring

/-- C4. At the failing input k = 1, k' = 1, A = 1, alpha = 1/2, delta = 0,
sigma = 1, nu = 1, gamma = 1/4 — all inside the documented parameter
domains — the intratemporal residual has no zero anywhere in [0,1], and
the minimum of the raw (signed) residual over [0,1] sits at n = 0 with
value -1/4. Bounded minimization of the signed residual (line 283) hence
cannot return a labor supply zeroing the condition here. -/
theorem intra_foc_minimizer_not_root :
    (∀ n : ℝ, 0 ≤ n → n ≤ 1 → intra_foc n 1 1 1 (1 / 2) 0 1 1 (1 / 4) ≠ 0) ∧
    intra_foc 0 1 1 1 (1 / 2) 0 1 1 (1 / 4) = -(1 / 4) ∧
    (∀ n : ℝ, 0 ≤ n → n ≤ 1 →
      intra_foc 0 1 1 1 (1 / 2) 0 1 1 (1 / 4) ≤ intra_foc n 1 1 1 (1 / 2) 0 1 1 (1 / 4)) := by
  have hpos : ∀ n : ℝ, 0 < n → n ≤ 1 →
      (1 : ℝ) / 4 ≤ intra_foc n 1 1 1 (1 / 2) 0 1 1 (1 / 4) := by
    intro n hn hn1
    rw [intra_foc_concrete n hn]
    have h1 : (1 : ℝ) / 2 ≤ 1 / (2 * n) := by
      rw [le_one_div (by norm_num) (by linarith)]
      linarith
    linarith
  refine ⟨?_, intra_foc_concrete_zero, ?_⟩
  · intro n h0 h1 hz
    rcases h0.eq_or_lt with heq | hn
    · rw [← heq, intra_foc_concrete_zero] at hz
      norm_num at hz
    · have := hpos n hn h1
      rw [hz] at this
      norm_num at this
  · intro n h0 h1
    rcases h0.eq_or_lt with heq | hn
    · rw [← heq]
    · rw [intra_foc_concrete_zero]
      have := hpos n hn h1
      linarith

/-! ## Policy-table postprocessing (`ps1_5de.py`, lines 340-348)

`sol.i = k1 - (1-delta)*kmat` (line 344), `sol.c = sol.y - sol.i`
(line 345), then `sol.c[sol.c < 0] = 0` (line 346). The simulation
(lines 443-453) reads these table cells verbatim. -/

/-- Investment cell: `k1 - (1-delta)*kmat` (line 344). -/
noncomputable def solInvest (k1 kmat delta : ℝ) : ℝ := k1 - (1 - delta) * kmat

open Classical in
/-- Consumption cell: `y - i`, clamped at 0 from below (lines 345-346). -/
noncomputable def solCons (y i : ℝ) : ℝ := if y - i < 0 then 0 else y - i

/-- C5 (amended). For every policy-table cell: consumption is never
negative, and output = consumption + investment (equivalently, the
simulated budget residual `y - i - c` vanishes) exactly on the cells where
output covers investment; on clamped cells consumption is 0. -/
theorem consumption_clamp_budget (y k1 kmat delta : ℝ) :
    0 ≤ solCons y (solInvest k1 kmat delta) ∧
    (0 ≤ y - solInvest k1 kmat delta →
      y = solCons y (solInvest k1 kmat delta) + solInvest k1 kmat delta
        ∧ y - solInvest k1 kmat delta - solCons y (solInvest k1 kmat delta) = 0) ∧
    (y - solInvest k1 kmat delta < 0 → solCons y (solInvest k1 kmat delta) = 0) := by
  unfold solCons
  split_ifs with h
  · exact ⟨le_refl 0, fun h2 => absurd h (not_lt.mpr h2), fun _ => rfl⟩
  · refine ⟨by linarith [not_lt.mp h], fun _ => ⟨by ring, by ring⟩,
      fun h2 => absurd h2 (not_lt.mpr (not_lt.mp h))⟩

/-- C5 counterexample. At the clamped cell y = 0, k1 = 1, kmat = 1,
delta = 1/2 (output 0, investment 1/2, implied consumption -1/2 clamped
to 0), output does not equal consumption plus investment. -/
theorem consumption_clamp_breaks_budget :
    solCons 0 (solInvest 1 1 (1 / 2)) + solInvest 1 1 (1 / 2) ≠ 0 := by
  unfold solCons solInvest
  norm_num

/-! ## Stationary-distribution step (`ps1_5de.py`, `grow_economy`, line 426)

`pmat0 = matrix_power(pmat,1000)[0,:]` — the 1000th matrix power, row 0.
There is no convergence or ergodicity check anywhere in `grow_economy`
and no error path: the function proceeds with this row unconditionally. -/

/-- The initial productivity distribution of the simulator: row 0 of
`pmat ^ 1000` (line 426). A total function — no failure branch exists. -/
noncomputable def stationaryInit {n : ℕ}
    (P : Matrix (Fin (n + 1)) (Fin (n + 1)) ℝ) : Fin (n + 1) → ℝ :=
  fun j => (P ^ 1000) 0 j

lemma matpow_row_stochastic {n : ℕ} (P : Matrix (Fin (n + 1)) (Fin (n + 1)) ℝ)
    (hrow : ∀ i, ∑ j, P i j = 1) (hpos : ∀ i j, 0 ≤ P i j) (k : ℕ) :
    (∀ i, ∑ j, (P ^ k) i j = 1) ∧ (∀ i j, 0 ≤ (P ^ k) i j) := by
  induction k with
  | zero =>
      constructor
      · intro i
        simp [Matrix.one_apply]
      · intro i j
        rw [pow_zero, Matrix.one_apply]
        split <;> norm_num
  | succ k IH =>
      constructor
      · intro i
        rw [pow_succ]
        simp only [Matrix.mul_apply]
        rw [Finset.sum_comm]
        calc ∑ l, ∑ j, (P ^ k) i l * P l j
            = ∑ l, (P ^ k) i l * ∑ j, P l j := by
              exact Finset.sum_congr rfl fun l _ => (Finset.mul_sum _ _ _).symm
          _ = ∑ l, (P ^ k) i l := by
              exact Finset.sum_congr rfl fun l _ => by rw [hrow l, mul_one]
          _ = 1 := IH.1 i
      · intro i j
        rw [pow_succ]
        simp only [Matrix.mul_apply]
        exact Finset.sum_nonneg fun l _ => mul_nonneg (IH.2 i l) (hpos l j)

/-- C6 (amended). The simulator's stationary step computes exactly the
1000th power of the transition matrix and reads its row 0 as the initial
productivity distribution; it performs no convergence check and never
fails, and for any row-stochastic input (ergodic or not) the row it
returns is a probability vector. -/
theorem stationaryInit_power_row_no_check {n : ℕ}
    (P : Matrix (Fin (n + 1)) (Fin (n + 1)) ℝ)
    (hrow : ∀ i, ∑ j, P i j = 1) (hpos : ∀ i j, 0 ≤ P i j) :
    (∀ j, stationaryInit P j = (P ^ 1000) 0 j) ∧
    (∑ j, stationaryInit P j = 1) ∧ (∀ j, 0 ≤ stationaryInit P j) := by
  have h := matpow_row_stochastic P hrow hpos 1000
  exact ⟨fun j => rfl, h.1 0, fun j => h.2 0 j⟩

/-- Witness for C6 (amended) at the 2-state identity matrix. -/
theorem stationaryInit_power_row_no_check_witness :
    (∀ j, stationaryInit (1 : Matrix (Fin 2) (Fin 2) ℝ) j
        = ((1 : Matrix (Fin 2) (Fin 2) ℝ) ^ 1000) 0 j) ∧
    (∑ j, stationaryInit (1 : Matrix (Fin 2) (Fin 2) ℝ) j = 1) ∧
    (∀ j, 0 ≤ stationaryInit (1 : Matrix (Fin 2) (Fin 2) ℝ) j) :=
  stationaryInit_power_row_no_check 1
    (fun i => by simp [Matrix.one_apply])
    (fun i j => by rw [Matrix.one_apply]; split <;> norm_num)

/-- C6 counterexample. The identity matrix is a row-stochastic but
non-ergodic chain: the rows of its 1000th power do not converge to a
common distribution, yet `stationaryInit` raises nothing and proceeds
with the degenerate row `(1, 0)`. -/
theorem stationaryInit_no_ergodic_error :
    ((1 : Matrix (Fin 2) (Fin 2) ℝ) ^ 1000) 0 ≠ ((1 : Matrix (Fin 2) (Fin 2) ℝ) ^ 1000) 1 ∧
    stationaryInit (1 : Matrix (Fin 2) (Fin 2) ℝ) 0 = 1 ∧
    stationaryInit (1 : Matrix (Fin 2) (Fin 2) ℝ) 1 = 0 := by
  refine ⟨?_, ?_, ?_⟩
  · intro h
    rw [one_pow] at h
    have h0 := congrFun h 0
    simp [Matrix.one_apply] at h0
  · unfold stationaryInit
    rw [one_pow, Matrix.one_apply]
    norm_num
  · unfold stationaryInit
    rw [one_pow, Matrix.one_apply]
    norm_num

/-! ## The VFI loop (`ps1_5de.py`, `plan_allocations`, lines 299-330)

`crit = 1e-6; maxiter = 10000; diff = 1; iter = 0;` then
`while (diff > crit) and (iter < maxiter):` compute `v1` from `v0`
(the Bellman update, abstracted as `update`), set
`diff = norm(v1 - v0)` (abstracted as `dist v1 v0`), `v0 = v1`,
`iter = iter + 1`. The loop state is `(v0, diff, iter)`; the remaining
fuel is `maxiter - iter`. -/

def vfiStep {V : Type} (update : V → V) (dist : V → V → ℚ) :
    ℕ → V → ℚ → ℕ → V × ℚ × ℕ
  | 0, v, diff, iter => (v, diff, iter)
  | fuel + 1, v, diff, iter =>
      if 1 / 1000000 < diff then
        vfiStep update dist fuel (update v) (dist (update v) v) (iter + 1)
      else (v, diff, iter)

/-- The whole loop: `maxiter = 10000` rounds of fuel from `diff = 1`,
`iter = 0` (lines 299-304). -/
def vfiLoop {V : Type} (update : V → V) (dist : V → V → ℚ) (v0 : V) : V × ℚ × ℕ :=
  vfiStep update dist 10000 v0 1 0

lemma vfiStep_spec {V : Type} (update : V → V) (dist : V → V → ℚ) (v0 : V) :
    ∀ fuel iter v diff, v = update^[iter] v0 →
      (vfiStep update dist fuel v diff iter).2.2 ≤ iter + fuel ∧
      ((vfiStep update dist fuel v diff iter).2.1 ≤ 1 / 1000000 ∨
        (vfiStep update dist fuel v diff iter).2.2 = iter + fuel) ∧
      (vfiStep update dist fuel v diff iter).1
        = update^[(vfiStep update dist fuel v diff iter).2.2] v0 := by
  intro fuel
  induction fuel with
  | zero =>
      intro iter v diff hv
      exact ⟨Nat.le_add_right iter 0, Or.inr rfl, hv⟩
  | succ f IH =>
      intro iter v diff hv
      by_cases hd : 1 / 1000000 < diff
      · have hv' : update v = update^[iter + 1] v0 := by
          rw [Function.iterate_succ_apply', hv]
        obtain ⟨h1, h2, h3⟩ := IH (iter + 1) (update v) (dist (update v) v) hv'
        rw [show vfiStep update dist (f + 1) v diff iter
            = vfiStep update dist f (update v) (dist (update v) v) (iter + 1) from by
          rw [vfiStep, if_pos hd]]
        refine ⟨by omega, ?_, h3⟩
        rcases h2 with h | h
        · exact Or.inl h
        · exact Or.inr (by omega)
      · rw [show vfiStep update dist (f + 1) v diff iter = (v, diff, iter) from by
          rw [vfiStep, if_neg hd]]
        exact ⟨Nat.le_add_right iter (f + 1), Or.inl (le_of_not_lt hd), hv⟩

/-- C7. The VFI loop always terminates with an iteration count of at most
10,000; on exit either the recorded distance is within the 1e-6 tolerance
or the cap was reached; and in every case (cap reached included) the
returned table is the last Bellman iterate — the loop returns rather than
failing. -/
theorem vfi_loop_terminates {V : Type} (update : V → V) (dist : V → V → ℚ) (v0 : V) :
    (vfiLoop update dist v0).2.2 ≤ 10000 ∧
    ((vfiLoop update dist v0).2.1 ≤ 1 / 1000000 ∨ (vfiLoop update dist v0).2.2 = 10000) ∧
    (vfiLoop update dist v0).1 = update^[(vfiLoop update dist v0).2.2] v0 := by
  have h := vfiStep_spec update dist v0 10000 0 v0 1 rfl
  simpa [vfiLoop] using h

/-! ## Concrete scenario of `ps1_3cd.py` (lines 33-46 and 89-104)

`N = 7`, `gamma1 = 0.85`, `sigma_epsilon = 1`, `mu = 0.5/(1-gamma1)`,
`sigma_y = sigma_epsilon/np.sqrt(1-gamma1**2)`, `c = np.sqrt(N-1)`,
`y = np.linspace(mu - c*sigma_y, mu + c*sigma_y, N)`. -/

noncomputable def ps1MuY : ℝ := 0.5 / (1 - 0.85)

noncomputable def ps1SigmaY : ℝ := 1 / Real.sqrt (1 - 0.85 ^ 2)

noncomputable def ps1C : ℝ := Real.sqrt (7 - 1)

/-- Grid point `i` of `linspace(mu - c*sigma_y, mu + c*sigma_y, 7)`. -/
noncomputable def ps1Grid (i : ℕ) : ℝ :=
  (ps1MuY - ps1C * ps1SigmaY)
    + (i : ℝ) * (((ps1MuY + ps1C * ps1SigmaY) - (ps1MuY - ps1C * ps1SigmaY)) / (7 - 1))

/-- `simulate_markov_chain_fixed_start` (lines 89-104): `states[0] = 0`
(the forced start at state 1) and each later state is the index drawn by
`np.random.choice(N, p=P[states[t-1]])`, always an index below `N = 7`;
the random draws are abstracted as an arbitrary index sequence. -/
def fixedStartStates (draws : ℕ → Fin 7) : ℕ → Fin 7
  | 0 => ⟨0, by norm_num⟩
  | t + 1 => draws (t + 1)

/-- The returned series `y[states]` of the simulator. -/
noncomputable def fixedStartSeries (draws : ℕ → Fin 7) (t : ℕ) : ℝ :=
  ps1Grid (fixedStartStates draws t)

lemma ps1Step_nonneg :
    0 ≤ ((ps1MuY + ps1C * ps1SigmaY) - (ps1MuY - ps1C * ps1SigmaY)) / (7 - 1) := by
  have hc : 0 ≤ ps1C := Real.sqrt_nonneg _
  have hs : 0 ≤ ps1SigmaY := div_nonneg zero_le_one (Real.sqrt_nonneg _)
  apply div_nonneg
  · nlinarith
  · norm_num

lemma ps1Grid_bounds (i : ℕ) (hi : i ≤ 6) :
    ps1Grid 0 ≤ ps1Grid i ∧ ps1Grid i ≤ ps1Grid 6 := by
  have hstep := ps1Step_nonneg
  have hcast : (i : ℝ) ≤ 6 := by exact_mod_cast hi
  have h0 : (0 : ℝ) ≤ (i : ℝ) := Nat.cast_nonneg i
  unfold ps1Grid
  constructor
  · push_cast
    nlinarith
  · push_cast
    nlinarith

lemma ps1Grid_zero_approx : |ps1Grid 0 + 132 / 100| < 1 / 200 := by
  have ha_lo : (2.44948 : ℝ) < Real.sqrt 6 := by
    rw [Real.lt_sqrt (by norm_num)]
    norm_num
  have ha_hi : Real.sqrt 6 < 2.4495 := by
    rw [Real.sqrt_lt' (by norm_num)]
    norm_num
  have hb_lo : (0.526782 : ℝ) < Real.sqrt 0.2775 := by
    rw [Real.lt_sqrt (by norm_num)]
    norm_num
  have hb_hi : Real.sqrt 0.2775 < 0.526783 := by
    rw [Real.sqrt_lt' (by norm_num)]
    norm_num
  have hbpos : (0 : ℝ) < Real.sqrt 0.2775 := lt_trans (by norm_num) hb_lo
  unfold ps1Grid ps1MuY ps1C ps1SigmaY
  rw [show ((7 : ℝ) - 1) = 6 by norm_num, show ((1 : ℝ) - 0.85 ^ 2) = 0.2775 by norm_num]
  simp only [Nat.cast_zero, zero_mul, add_zero]
  have h1 : Real.sqrt 6 * (1 / Real.sqrt 0.2775) < 4.64994 := by
    rw [mul_one_div, div_lt_iff₀ hbpos]
    linarith
  have h2 : (4.64988 : ℝ) < Real.sqrt 6 * (1 / Real.sqrt 0.2775) := by
    rw [mul_one_div, lt_div_iff₀ hbpos]
    linarith
  rw [abs_lt]
  constructor <;> [linarith; linarith]

/-- C8. In the scenario N = 7, persistence 0.85, innovation std 1,
intercept 0.5, the first grid value is -1.32 to two decimals (it is
within 0.005 of -1.32), and every value of a chain forced to start at the
first state and evolved for 50 periods under the transition matrix stays
between the first and last grid values. -/
theorem ps1_scenario_first_state_and_chain_bounds :
    |ps1Grid 0 + 132 / 100| < 1 / 200 ∧
    ∀ draws : ℕ → Fin 7, ∀ t < 50,
      ps1Grid 0 ≤ fixedStartSeries draws t ∧ fixedStartSeries draws t ≤ ps1Grid 6 := by
  refine ⟨ps1Grid_zero_approx, fun draws t _ => ?_⟩
  have hlt := (fixedStartStates draws t).isLt
  exact ps1Grid_bounds (fixedStartStates draws t) (by omega)

/-! ## Capital grid lookup (`ps1_5de.py`, lines 125, 323-325, 443-444)

`par.kgrid = linspace(kmin, kmax, klen)` (line 125);
`k1[p,j] = kgrid[argmax(vall)]` (line 324) — every policy entry is a grid
element, the arg-max index being abstracted as `sel p j`; the simulator
recovers the index by `where(ksim[j-1] == kgrid)` (line 444). -/

noncomputable def kgridOf (kmin kmax : ℝ) (klen i : ℕ) : ℝ :=
  kmin + (i : ℝ) * ((kmax - kmin) / ((klen : ℝ) - 1))

/-- Capital-policy cell `kgrid[argmax(vall)]` (line 324); the arg-max index
`sel p j : Fin klen` is abstract — only its range is used. -/
noncomputable def kpolicy (kmin kmax : ℝ) (klen : ℕ)
    (sel : ℕ → ℕ → Fin klen) (p j : ℕ) : ℝ :=
  kgridOf kmin kmax klen (sel p j : ℕ)

/-- C9. Every capital-policy entry is exactly a grid element, and the
simulator's equality lookup of that value against the grid matches exactly
one index (the `linspace` grid is strictly increasing, so grid values are
pairwise distinct). -/
theorem kpolicy_grid_lookup_unique (kmin kmax : ℝ) (klen : ℕ)
    (sel : ℕ → ℕ → Fin klen) (p j : ℕ) (hk : kmin < kmax) (hlen : 2 ≤ klen) :
    ∃! i : Fin klen, kgridOf kmin kmax klen (i : ℕ) = kpolicy kmin kmax klen sel p j := by
  have hstep : 0 < (kmax - kmin) / ((klen : ℝ) - 1) := by
    apply div_pos (by linarith)
    have h2 : (2 : ℝ) ≤ (klen : ℝ) := by exact_mod_cast hlen
    linarith
  refine ⟨sel p j, rfl, ?_⟩
  intro i hi
  unfold kpolicy kgridOf at hi
  have hmul : ((i : ℕ) : ℝ) * ((kmax - kmin) / ((klen : ℝ) - 1))
      = (((sel p j : Fin klen) : ℕ) : ℝ) * ((kmax - kmin) / ((klen : ℝ) - 1)) := by
    linarith
  have hcast : ((i : ℕ) : ℝ) = (((sel p j : Fin klen) : ℕ) : ℝ) :=
    mul_right_cancel₀ hstep.ne' hmul
  exact Fin.ext (Nat.cast_injective hcast)

/-- Witness for C9 at kmin = 0, kmax = 1, klen = 2, constant arg-max 0. -/
theorem kpolicy_grid_lookup_unique_witness :
    ∃! i : Fin 2, kgridOf 0 1 2 (i : ℕ) = kpolicy 0 1 2 (fun _ _ => 0) 0 0 :=
  kpolicy_grid_lookup_unique 0 1 2 (fun _ _ => 0) 0 0 (by norm_num) (by norm_num)

/-! ## Module-level execution of `ps1_3cd.py` (whole file)

Python executes a module's statements top to bottom in one namespace; a
statement that reads a name not yet bound raises `NameError` and nothing
after it runs. Each top-level statement of `ps1_3cd.py` is recorded as the
names it reads and the names it binds, in source order. The simulator
`simulate_markov_chain_fixed_start` is only defined inside the `for` loop
body (lines 89-104), long after its call on line 65, and `gamma_values`
(line 76) and `seed` (line 106) are bound nowhere in the file. -/

inductive PyName where
  | np
  | pd
  | plt
  | rouwenhorst
  | N
  | gamma1
  | sigma_epsilon
  | mu
  | sigma_y
  | c
  | y
  | p
  | P
  | tm_085
  | T
  | simulate_markov_chain_fixed_start
  | sim_data_fixed_start
  | gamma_values
  | seed
  | sim_data
  deriving DecidableEq

instance : BEq PyName := instBEqOfDecidableEq

/-- One top-level statement: the global names it reads and binds. -/
structure PyStmt where
  uses : List PyName
  defines : List PyName

/-- Run the statements in order from a set of bound names: the first
statement that reads an unbound name stops execution with that name and
the statement's index (Python's `NameError`). -/
def runScript : ℕ → List PyStmt → List PyName → Except (PyName × ℕ) (List PyName)
  | _, [], env => Except.ok env
  | idx, s :: rest, env =>
      match s.uses.find? (fun u => ! env.contains u) with
      | some u => Except.error (u, idx)
      | none => runScript (idx + 1) rest (env ++ s.defines)

/-- The top-level statements of `ps1_3cd.py`, in order. -/
def ps1_3cd_script : List PyStmt := [
  ⟨[], [.np]⟩,                                                    -- line 8
  ⟨[], [.pd]⟩,                                                    -- line 9
  ⟨[], [.plt]⟩,                                                   -- line 10
  ⟨[], [.rouwenhorst]⟩,                                           -- lines 13-31
  ⟨[], [.N]⟩,                                                     -- line 34
  ⟨[], [.gamma1]⟩,                                                -- line 35
  ⟨[], [.sigma_epsilon]⟩,                                         -- line 36
  ⟨[.gamma1], [.mu]⟩,                                             -- line 37
  ⟨[.sigma_epsilon, .np, .gamma1], [.sigma_y]⟩,                   -- line 38
  ⟨[.np, .N], [.c]⟩,                                              -- line 39
  ⟨[.np, .mu, .c, .sigma_y, .N], [.y]⟩,                           -- line 42
  ⟨[.gamma1], [.p]⟩,                                              -- line 45
  ⟨[.rouwenhorst, .N, .p], [.P]⟩,                                 -- line 46
  ⟨[.pd, .P, .N], [.tm_085]⟩,                                     -- line 49
  ⟨[.tm_085, .np, .y], []⟩,                                       -- line 50
  ⟨[.tm_085], []⟩,                                                -- line 51
  ⟨[], []⟩,                                                       -- line 53
  ⟨[.y], []⟩,                                                     -- line 54
  ⟨[], []⟩,                                                       -- line 55
  ⟨[.tm_085], []⟩,                                                -- line 56
  ⟨[.np, .y], []⟩,                                                -- line 57
  ⟨[.np, .P], []⟩,                                                -- line 58
  ⟨[.np], [.y]⟩,                                                  -- line 60
  ⟨[.np], [.P]⟩,                                                  -- line 61
  ⟨[], [.T]⟩,                                                     -- line 64
  ⟨[.simulate_markov_chain_fixed_start, .y, .P, .T],
    [.sim_data_fixed_start]⟩,                                     -- line 65
  ⟨[.plt], []⟩,                                                   -- line 68
  ⟨[.plt, .T, .sim_data_fixed_start, .gamma1], []⟩,               -- line 69
  ⟨[.plt], []⟩,                                                   -- line 70
  ⟨[.plt], []⟩,                                                   -- line 71
  ⟨[.plt], []⟩,                                                   -- line 72
  ⟨[.plt], []⟩,                                                   -- line 73
  ⟨[.gamma_values, .sigma_epsilon, .np, .N, .rouwenhorst, .T, .seed, .plt],
    [.gamma1, .mu, .sigma_y, .c, .y, .p, .P,
      .simulate_markov_chain_fixed_start, .sim_data]⟩,            -- lines 76-109
  ⟨[.plt], []⟩,                                                   -- line 111
  ⟨[.plt], []⟩,                                                   -- line 112
  ⟨[.plt], []⟩,                                                   -- line 113
  ⟨[.plt], []⟩,                                                   -- line 114
  ⟨[.plt], []⟩]                                                   -- line 115

/-- C10. Running `ps1_3cd.py` top to bottom stops with an undefined-name
error at the module-level simulator call (statement index 25, line 65):
`simulate_markov_chain_fixed_start` is not yet bound there. Moreover
`gamma_values` is bound by no statement of the file — so the simulation
portion after line 65 can never execute as written. -/
theorem ps1_3cd_fails_before_simulation :
    runScript 0 ps1_3cd_script []
        = Except.error (PyName.simulate_markov_chain_fixed_start, 25) ∧
    (∀ s ∈ ps1_3cd_script, PyName.gamma_values ∉ s.defines) ∧
    25 < ps1_3cd_script.length := by
  refine ⟨rfl, by decide, by decide⟩

end GrowthModel
